import Mathlib

/-!
Verification of the angle / orbit-camera utility of `src/site3d.js`.

The JavaScript arithmetic is embedded over the real numbers: the IEEE
doubles of the source become elements of `ℝ`, JavaScript's `%` operator
becomes `jsMod` (remainder after truncated division, carrying the sign of
the dividend), and `Math.cos` / `Math.sin` / `Math.PI` become `Real.cos`,
`Real.sin` and `Real.pi`.  The camera is embedded as its position together
with a facing vector; the external engine's `lookAt` call is embedded as
setting the facing vector to point from the camera position to the target.
-/

open Real

noncomputable section

namespace Site3d

/-- Truncation toward zero on the reals, matching how JavaScript's `%`
operator truncates the quotient. -/
def jsTrunc (r : ℝ) : ℤ := if 0 ≤ r then ⌊r⌋ else ⌈r⌉

/-- JavaScript's remainder operator `x % y`: the remainder after truncated
division, with the sign of the dividend. -/
def jsMod (x y : ℝ) : ℝ := x - y * (jsTrunc (x / y) : ℝ)

/-- Embeds `site3d.TwoPI` (src/site3d.js line 5). -/
def TwoPI : ℝ := 2 * π

/-- Embeds `site3d.normalizeRad` (src/site3d.js line 7): a full-turn input
is passed through unchanged, otherwise the JavaScript remainder by `2π`. -/
def normalizeRad (angle : ℝ) : ℝ :=
  if |angle| = TwoPI then angle else jsMod angle TwoPI

/-- Embeds `site3d.minRotationAngle` (src/site3d.js lines 8-13); `e` is the
source's `end` parameter. -/
def minRotationAngle (start e : ℝ) : ℝ :=
  if |start - e| > π then (if start > 0 then e + TwoPI else e - TwoPI) else e

/-- Embeds `site3d.normalizeDeg` (src/site3d.js line 14). -/
def normalizeDeg (angle : ℝ) : ℝ :=
  if |angle| = 360 then angle else jsMod angle 360

/-- Embeds `site3d.toRad` (src/site3d.js line 15). -/
def toRad (angle : ℝ) : ℝ := normalizeDeg angle * (π / 180)

/-- Embeds `site3d.toDeg` (src/site3d.js line 16). -/
def toDeg (angle : ℝ) : ℝ := normalizeRad angle * (180 / π)

/-- A 3-component world-space point or vector (the engine's `Vector3`). -/
@[ext]
structure Vec3 where
  x : ℝ
  y : ℝ
  z : ℝ

/-- Embeds the `_cameraRotateOptions` record (src/site3d.js line 83):
the orbit target, the orbit axis (`axe`, an arbitrary string), and the
`isLook` re-aim flag. -/
structure CameraRotateOptions where
  target : Vec3
  axe : String
  isLook : Bool

/-- The camera: its world position and a facing vector.  The facing vector
embeds the orientation state the external engine keeps for the camera. -/
structure Camera where
  pos : Vec3
  facing : Vec3

/-- The external engine's `lookAt` call, embedded as re-aiming the facing
vector from the camera position toward the target point; the position is
untouched. -/
def lookAt (c : Camera) (t : Vec3) : Camera :=
  { c with facing := ⟨t.x - c.pos.x, t.y - c.pos.y, t.z - c.pos.z⟩ }

/-- The new position computed by the `axe == 'y'` branch of `rotateCamera`
(src/site3d.js lines 222-227): `x1` and `z1` from the 2D turn about the
target's X/Z, with Y kept. -/
def orbitPosY (target pos : Vec3) (angle : ℝ) : Vec3 :=
  ⟨target.x + (pos.x - target.x) * Real.cos angle - (pos.z - target.z) * Real.sin angle,
   pos.y,
   target.z + (pos.z - target.z) * Real.cos angle + (pos.x - target.x) * Real.sin angle⟩

/-- Camera state: the camera together with the stored orbit options. -/
structure CamState where
  camera : Camera
  opts : CameraRotateOptions

/-- Embeds `rotateCamera(p1)` called with a single numeric argument
(src/site3d.js lines 194-233: `p3` and `p2` undefined, `p1` not an array),
so the stored options are not updated: the angle is `toRad p1`; the
position moves only when the stored axis is the string `y`; then, when
`isLook` is set, the engine's `lookAt` re-aims at the stored target. -/
def rotateCamera (st : CamState) (p1 : ℝ) : CamState :=
  let cam1 :=
    if st.opts.axe = "y"
      then { st.camera with pos := orbitPosY st.opts.target st.camera.pos (toRad p1) }
      else st.camera
  let cam2 := if st.opts.isLook then lookAt cam1 st.opts.target else cam1
  { camera := cam2, opts := st.opts }

/-- Rotation about the world x axis (the engine's `rotateOnWorldAxis` with
axis `(1,0,0)`), as a map on vectors. -/
def rotAxisX (θ : ℝ) (v : Vec3) : Vec3 :=
  ⟨v.x, v.y * Real.cos θ - v.z * Real.sin θ, v.y * Real.sin θ + v.z * Real.cos θ⟩

/-- Rotation about the world y axis (the engine's `rotateOnWorldAxis` with
axis `(0,1,0)`), as a map on vectors. -/
def rotAxisY (θ : ℝ) (v : Vec3) : Vec3 :=
  ⟨v.x * Real.cos θ + v.z * Real.sin θ, v.y, -(v.x * Real.sin θ) + v.z * Real.cos θ⟩

/-- The engine's `object.rotateOnWorldAxis(axis, angle)`: the world-axis
turn `r` is applied after the object's current orientation `f`.  An
orientation is embedded extensionally, as the map sending body-frame
vectors to world-frame vectors. -/
def rotateOnWorldAxis (r : Vec3 → Vec3) (f : Vec3 → Vec3) : Vec3 → Vec3 :=
  fun v => r (f v)

/-- Embeds `site3dModel.rotateWorldRad` (src/site3d.js lines 513-518): a
turn about the world x axis by `stepX`, then a turn about the world y axis
by `stepY`, applied twice; `stepZ` is accepted but never used. -/
def rotateWorldRad (stepX stepY stepZ : ℝ) (f : Vec3 → Vec3) : Vec3 → Vec3 :=
  rotateOnWorldAxis (rotAxisY stepY)
    (rotateOnWorldAxis (rotAxisY stepY) (rotateOnWorldAxis (rotAxisX stepX) f))

/-- Embeds `site3d.rotateCameraWorldRad` (src/site3d.js lines 188-193),
whose body is the same three `rotateOnWorldAxis` calls on the camera. -/
def rotateCameraWorldRad (stepX stepY stepZ : ℝ) (f : Vec3 → Vec3) : Vec3 → Vec3 :=
  rotateOnWorldAxis (rotAxisY stepY)
    (rotateOnWorldAxis (rotAxisY stepY) (rotateOnWorldAxis (rotAxisX stepX) f))

/-- The concrete orbit scenario of the spec: target `(0,0,0)`, axis `y`,
camera at `(0,0,5)`. -/
def c2State : CamState :=
  { camera := { pos := ⟨0, 0, 5⟩, facing := ⟨0, 0, -1⟩ },
    opts := { target := ⟨0, 0, 0⟩, axe := "y", isLook := true } }

/-- A concrete state whose stored orbit axis is the unhandled value `x`. -/
def c7State : CamState :=
  { camera := { pos := ⟨0, 0, 5⟩, facing := ⟨0, 0, -1⟩ },
    opts := { target := ⟨0, 0, 0⟩, axe := "x", isLook := true } }

/-- A concrete state with the unhandled axis `x`, `isLook` set, and a
facing vector that does not point at the target. -/
def c10State : CamState :=
  { camera := { pos := ⟨0, 0, 5⟩, facing := ⟨1, 0, 0⟩ },
    opts := { target := ⟨0, 0, 0⟩, axe := "x", isLook := true } }

/-!  Basic facts about `jsTrunc` and `jsMod`. -/

lemma jsTrunc_neg (r : ℝ) : jsTrunc (-r) = -jsTrunc r := by
  unfold jsTrunc
  rcases lt_trichotomy r 0 with h | h | h
  · rw [if_neg (not_le.mpr h), if_pos (by linarith), Int.floor_neg]
  · subst h; simp
  · rw [if_pos h.le, if_neg (by simpa using h), Int.ceil_neg]

lemma jsMod_neg (x y : ℝ) : jsMod (-x) y = -jsMod x y := by
  unfold jsMod
  rw [neg_div, jsTrunc_neg]
  push_cast
  ring

lemma jsMod_of_nonneg {x y : ℝ} (hy : 0 < y) (hx : 0 ≤ x) :
    jsMod x y = y * Int.fract (x / y) := by
  unfold jsMod jsTrunc
  rw [if_pos (div_nonneg hx hy.le), Int.fract, mul_sub, mul_div_cancel₀ _ hy.ne']

lemma jsMod_nonneg {x y : ℝ} (hy : 0 < y) (hx : 0 ≤ x) : 0 ≤ jsMod x y := by
  rw [jsMod_of_nonneg hy hx]
  exact mul_nonneg hy.le (Int.fract_nonneg _)

lemma jsMod_lt {x y : ℝ} (hy : 0 < y) (hx : 0 ≤ x) : jsMod x y < y := by
  rw [jsMod_of_nonneg hy hx]
  calc y * Int.fract (x / y) < y * 1 :=
        mul_lt_mul_of_pos_left (Int.fract_lt_one _) hy
    _ = y := mul_one y

lemma jsMod_nonpos {x y : ℝ} (hy : 0 < y) (hx : x ≤ 0) : jsMod x y ≤ 0 := by
  have h := jsMod_nonneg hy (neg_nonneg.mpr hx)
  rw [show x = -(-x) by ring, jsMod_neg]
  linarith

lemma jsMod_gt_neg {x y : ℝ} (hy : 0 < y) (hx : x ≤ 0) : -y < jsMod x y := by
  have h := jsMod_lt hy (neg_nonneg.mpr hx)
  rw [show x = -(-x) by ring, jsMod_neg]
  linarith

lemma jsMod_abs_lt {y : ℝ} (hy : 0 < y) (x : ℝ) : |jsMod x y| < y := by
  rcases le_or_lt 0 x with hx | hx
  · rw [abs_of_nonneg (jsMod_nonneg hy hx)]
    exact jsMod_lt hy hx
  · rw [abs_of_nonpos (jsMod_nonpos hy hx.le)]
    have := jsMod_gt_neg hy hx.le
    linarith

lemma jsMod_sub_int_mul (x y : ℝ) : ∃ k : ℤ, jsMod x y - x = k * y :=
  ⟨-jsTrunc (x / y), by unfold jsMod; push_cast; ring⟩

lemma jsMod_eq_self {x y : ℝ} (hy : 0 < y) (h : |x| < y) : jsMod x y = x := by
  have habs : |x / y| < 1 := by
    rw [abs_div, abs_of_pos hy]
    exact (div_lt_one hy).mpr h
  have h1 : -1 < x / y := by
    have := neg_abs_le (x / y); linarith
  have h2 : x / y < 1 := by
    have := le_abs_self (x / y); linarith
  unfold jsMod jsTrunc
  by_cases h0 : 0 ≤ x / y
  · rw [if_pos h0, Int.floor_eq_zero_iff.mpr ⟨h0, h2⟩]
    push_cast; ring
  · rw [if_neg h0, Int.ceil_eq_zero_iff.mpr ⟨h1, le_of_not_le h0⟩]
    push_cast; ring

lemma two_pi_pos : (0 : ℝ) < 2 * π := by positivity

lemma normalizeRad_eq_self {θ : ℝ} (h : |θ| < 2 * π) : normalizeRad θ = θ := by
  unfold normalizeRad TwoPI
  rw [if_neg (ne_of_lt h)]
  exact jsMod_eq_self two_pi_pos h

lemma normalizeDeg_eq_self {a : ℝ} (h : |a| < 360) : normalizeDeg a = a := by
  unfold normalizeDeg
  rw [if_neg (ne_of_lt h)]
  exact jsMod_eq_self (by norm_num) h

lemma normalizeRad_two_pi : normalizeRad (2 * π) = 2 * π := by
  unfold normalizeRad TwoPI
  rw [if_pos (abs_of_pos two_pi_pos)]

lemma normalizeRad_neg_two_pi : normalizeRad (-(2 * π)) = -(2 * π) := by
  unfold normalizeRad TwoPI
  rw [if_pos (by rw [abs_neg]; exact abs_of_pos two_pi_pos)]

lemma normalizeDeg_360 : normalizeDeg 360 = 360 := by
  unfold normalizeDeg
  rw [if_pos (by norm_num)]

lemma normalizeDeg_neg_360 : normalizeDeg (-360) = -360 := by
  unfold normalizeDeg
  rw [if_pos (by rw [abs_of_nonpos (by norm_num : (-360 : ℝ) ≤ 0)]; norm_num)]

lemma toRad_sub_int_mul (p : ℝ) : ∃ k : ℤ, toRad p = p * (π / 180) - k * (2 * π) := by
  unfold toRad normalizeDeg
  split_ifs with h
  · exact ⟨0, by push_cast; ring⟩
  · obtain ⟨k, hk⟩ := jsMod_sub_int_mul p 360
    refine ⟨-k, ?_⟩
    have hk2 : jsMod p 360 = k * 360 + p := by linarith
    rw [hk2]
    push_cast
    ring

lemma cos_toRad (p : ℝ) : Real.cos (toRad p) = Real.cos (p * (π / 180)) := by
  obtain ⟨k, hk⟩ := toRad_sub_int_mul p
  rw [hk, Real.cos_sub_int_mul_two_pi]

lemma sin_toRad (p : ℝ) : Real.sin (toRad p) = Real.sin (p * (π / 180)) := by
  obtain ⟨k, hk⟩ := toRad_sub_int_mul p
  rw [hk, Real.sin_sub_int_mul_two_pi]

lemma toRad_ninety : toRad 90 = π / 2 := by
  unfold toRad
  rw [normalizeDeg_eq_self (by rw [abs_of_pos] <;> norm_num)]
  ring

lemma lookAt_pos (c : Camera) (t : Vec3) : (lookAt c t).pos = c.pos := rfl

/-!  The claims. -/

/-- C1 (counterexample): at `start = 0`, `end = -4` the adjustment is taken
downward (`start ≤ 0`), giving `-4 - 2π`, whose distance from `start`
is `4 + 2π > π`; so the claimed bound `|start - minRotationAngle start end| ≤ π`
fails. -/
theorem c1_counterexample :
    minRotationAngle 0 (-4) = -4 - 2 * π ∧
    π < |(0 : ℝ) - minRotationAngle 0 (-4)| := by
  have h4 : π < 4 := Real.pi_lt_four
  have hp : (0 : ℝ) < π := Real.pi_pos
  have hcond : |(0 : ℝ) - (-4)| > π := by
    rw [show (0 : ℝ) - (-4) = 4 by norm_num, abs_of_pos (by norm_num : (0 : ℝ) < 4)]
    exact h4
  have he : minRotationAngle 0 (-4) = -4 - 2 * π := by
    unfold minRotationAngle TwoPI
    rw [if_pos hcond, if_neg (by norm_num)]
  refine ⟨he, ?_⟩
  rw [he, show (0 : ℝ) - (-4 - 2 * π) = 4 + 2 * π by ring,
    abs_of_pos (by linarith)]
  linarith

/-- C1 (amended): `minRotationAngle start end` is always congruent to `end`
modulo `2π`; the bound `|start - minRotationAngle start end| ≤ π` holds
when `|start - end| ≤ π`, and otherwise only when the sign of `start`
points the adjustment the right way and the gap is at most `3π`:
`0 < start` with `π < start - end ≤ 3π`, or `start ≤ 0` with
`π < end - start ≤ 3π`. -/
theorem c1_minRotationAngle_amended (s e : ℝ) :
    (∃ k : ℤ, minRotationAngle s e - e = k * (2 * π)) ∧
    ((|s - e| ≤ π ∨ (0 < s ∧ π < s - e ∧ s - e ≤ 3 * π) ∨
        (s ≤ 0 ∧ π < e - s ∧ e - s ≤ 3 * π)) →
      |s - minRotationAngle s e| ≤ π) := by
  unfold minRotationAngle TwoPI
  split_ifs with h1 h2
  · constructor
    · exact ⟨1, by push_cast; ring⟩
    · rintro (hc | ⟨_, hlo, hhi⟩ | ⟨hs, _, _⟩)
      · exact absurd hc (not_le.mpr h1)
      · rw [abs_le]
        constructor <;> linarith
      · exact absurd h2 (not_lt.mpr hs)
  · constructor
    · exact ⟨-1, by push_cast; ring⟩
    · rintro (hc | ⟨hs, _, _⟩ | ⟨_, hlo, hhi⟩)
      · exact absurd hc (not_le.mpr h1)
      · exact absurd hs h2
      · rw [abs_le]
        constructor <;> linarith
  · constructor
    · exact ⟨0, by push_cast; ring⟩
    · intro _
      exact not_lt.mp h1

/-- Witness for the amended C1, at `start = 3`, `end = -3`. -/
theorem c1_witness : |(3 : ℝ) - minRotationAngle 3 (-3)| ≤ π :=
  (c1_minRotationAngle_amended 3 (-3)).2
    (Or.inr (Or.inl ⟨by norm_num,
      by rw [show (3 : ℝ) - (-3) = 6 by norm_num]; linarith [Real.pi_lt_four],
      by rw [show (3 : ℝ) - (-3) = 6 by norm_num]; linarith [Real.pi_gt_three]⟩))

/-- C3 (counterexample): JavaScript's `%` keeps the sign of the dividend,
so `normalizeRad (-1) = -1`, which does not lie in `[0, 2π)`. -/
theorem c3_counterexample :
    normalizeRad (-1) = -1 ∧ ¬(0 ≤ normalizeRad (-1)) := by
  have h : |(-1 : ℝ)| < 2 * π := by
    rw [abs_neg, abs_one]
    linarith [Real.pi_gt_three]
  have he : normalizeRad (-1) = -1 := normalizeRad_eq_self h
  exact ⟨he, by rw [he]; norm_num⟩

/-- C3 (amended): for `|θ| ≠ 2π`, `normalizeRad θ` lies in the open
interval `(-2π, 2π)` — in `[0, 2π)` when `θ ≥ 0` and in `(-2π, 0]` when
`θ ≤ 0` — is sign-consistent with `θ`, and is congruent to `θ`
modulo `2π`; correspondingly for `normalizeDeg` with `360` in place
of `2π`. -/
theorem c3_normalize_range_amended :
    (∀ θ : ℝ, |θ| ≠ 2 * π →
      |normalizeRad θ| < 2 * π ∧
      (0 ≤ θ → 0 ≤ normalizeRad θ) ∧ (θ ≤ 0 → normalizeRad θ ≤ 0) ∧
      ∃ k : ℤ, normalizeRad θ - θ = k * (2 * π)) ∧
    (∀ a : ℝ, |a| ≠ 360 →
      |normalizeDeg a| < 360 ∧
      (0 ≤ a → 0 ≤ normalizeDeg a) ∧ (a ≤ 0 → normalizeDeg a ≤ 0) ∧
      ∃ k : ℤ, normalizeDeg a - a = k * 360) := by
  constructor
  · intro θ h
    have hd : normalizeRad θ = jsMod θ (2 * π) := by
      unfold normalizeRad TwoPI
      rw [if_neg h]
    rw [hd]
    exact ⟨jsMod_abs_lt two_pi_pos θ, fun hθ => jsMod_nonneg two_pi_pos hθ,
      fun hθ => jsMod_nonpos two_pi_pos hθ, jsMod_sub_int_mul θ (2 * π)⟩
  · intro a h
    have hd : normalizeDeg a = jsMod a 360 := by
      unfold normalizeDeg
      rw [if_neg h]
    rw [hd]
    exact ⟨jsMod_abs_lt (by norm_num) a, fun ha => jsMod_nonneg (by norm_num) ha,
      fun ha => jsMod_nonpos (by norm_num) ha, jsMod_sub_int_mul a 360⟩

/-- Witness for the amended C3, at `θ = 1`. -/
theorem c3_witness : |normalizeRad 1| < 2 * π :=
  (c3_normalize_range_amended.1 1
    (by rw [abs_one]; exact ne_of_lt (by linarith [Real.pi_gt_three]))).1

/-- C5: `minRotationAngle start end` returns `end` unchanged whenever
`|start - end| ≤ π` (the comparison is strict, so exactly `π` is not
adjusted); otherwise it returns `end + 2π` when `start > 0` and
`end - 2π` when `start ≤ 0`; and `minRotationAngle 3 (-3) = -3 + 2π`. -/
theorem c5_minRotationAngle_algorithm :
    (∀ s e : ℝ,
      (|s - e| ≤ π → minRotationAngle s e = e) ∧
      (π < |s - e| → 0 < s → minRotationAngle s e = e + 2 * π) ∧
      (π < |s - e| → s ≤ 0 → minRotationAngle s e = e - 2 * π)) ∧
    minRotationAngle 3 (-3) = -3 + 2 * π := by
  constructor
  · intro s e
    unfold minRotationAngle TwoPI
    split_ifs with h1 h2
    · exact ⟨fun hc => absurd hc (not_le.mpr h1), fun _ _ => rfl,
        fun _ hs => absurd h2 (not_lt.mpr hs)⟩
    · exact ⟨fun hc => absurd hc (not_le.mpr h1), fun _ hs => absurd hs h2,
        fun _ _ => rfl⟩
    · exact ⟨fun _ => rfl, fun hc _ => absurd hc h1, fun hc _ => absurd hc h1⟩
  · have hcond : |(3 : ℝ) - (-3)| > π := by
      rw [show (3 : ℝ) - (-3) = 6 by norm_num,
        abs_of_pos (by norm_num : (0 : ℝ) < 6)]
      linarith [Real.pi_lt_four]
    unfold minRotationAngle TwoPI
    rw [if_pos hcond, if_pos (by norm_num : (3 : ℝ) > 0)]

/-- Witness for C5, at `start = 0`, `end = 1`. -/
theorem c5_witness : minRotationAngle 0 1 = 1 :=
  (c5_minRotationAngle_algorithm.1 0 1).1
    (by rw [show (0 : ℝ) - 1 = -1 by norm_num, abs_neg, abs_one]
        linarith [Real.pi_gt_three])

/-- C6: an input of exactly one full turn is passed through unchanged by
both normalizers: `normalizeRad (±2π) = ±2π` and
`normalizeDeg (±360) = ±360`. -/
theorem c6_full_turn_pass_through :
    normalizeRad (2 * π) = 2 * π ∧ normalizeRad (-(2 * π)) = -(2 * π) ∧
    normalizeDeg 360 = 360 ∧ normalizeDeg (-360) = -360 :=
  ⟨normalizeRad_two_pi, normalizeRad_neg_two_pi, normalizeDeg_360,
    normalizeDeg_neg_360⟩

/-- C8: converting degrees to radians and back lands exactly on the
degree-normalized input: `toDeg (toRad d) = normalizeDeg d` for every
real `d`. -/
theorem c8_toDeg_toRad_roundtrip (d : ℝ) : toDeg (toRad d) = normalizeDeg d := by
  have hpi : (0 : ℝ) < π := Real.pi_pos
  by_cases h : |d| = 360
  · rcases (abs_eq (by norm_num : (0 : ℝ) ≤ 360)).mp h with hd | hd
    · subst hd
      have h1 : toRad 360 = 2 * π := by
        unfold toRad
        rw [normalizeDeg_360]
        ring
      rw [h1]
      unfold toDeg
      rw [normalizeRad_two_pi, normalizeDeg_360]
      field_simp
      ring
    · subst hd
      have h1 : toRad (-360) = -(2 * π) := by
        unfold toRad
        rw [normalizeDeg_neg_360]
        ring
      rw [h1]
      unfold toDeg
      rw [normalizeRad_neg_two_pi, normalizeDeg_neg_360]
      field_simp
      ring
  · have hd : normalizeDeg d = jsMod d 360 := by
      unfold normalizeDeg
      rw [if_neg h]
    have habs : |jsMod d 360| < 360 := jsMod_abs_lt (by norm_num) d
    have hrad : toRad d = jsMod d 360 * (π / 180) := by
      unfold toRad
      rw [hd]
    have habs2 : |toRad d| < 2 * π := by
      rw [hrad, abs_mul, abs_of_pos (by positivity : (0 : ℝ) < π / 180)]
      calc |jsMod d 360| * (π / 180) < 360 * (π / 180) :=
            mul_lt_mul_of_pos_right habs (by positivity)
        _ = 2 * π := by ring
    unfold toDeg
    rw [normalizeRad_eq_self habs2, hrad, hd]
    field_simp

/-- C2 (counterexample): from position `(0,0,5)` with target `(0,0,0)` and
axis `y`, the 90-degree orbit step of `rotateCamera` lands at `(-5,0,0)`,
not approximately `(5,0,0)`: the X coordinate is off by `10`. -/
theorem c2_counterexample :
    (rotateCamera c2State 90).camera.pos.x = -5 ∧
    (rotateCamera c2State 90).camera.pos.y = 0 ∧
    (rotateCamera c2State 90).camera.pos.z = 0 ∧
    |(rotateCamera c2State 90).camera.pos.x - 5| = 10 := by
  have h : (rotateCamera c2State 90).camera.pos = ⟨-5, 0, 0⟩ := by
    simp only [rotateCamera, c2State, orbitPosY, lookAt, toRad_ninety,
      Real.cos_pi_div_two, Real.sin_pi_div_two, if_true]
    norm_num
  refine ⟨by rw [h], by rw [h], by rw [h], ?_⟩
  rw [h, show ((⟨-5, 0, 0⟩ : Vec3).x - 5 : ℝ) = -10 by norm_num,
    abs_of_nonpos (by norm_num)]
  norm_num

/-- C2 (amended): with target `(0,0,0)`, axis `y` and current position
`(0,0,5)`, the orbit step `rotateCamera 90` moves the camera to exactly
`(-5, 0, 0)`; the Y coordinate is unchanged. -/
theorem c2_orbit_scenario_amended :
    (rotateCamera c2State 90).camera.pos.x = -5 ∧
    (rotateCamera c2State 90).camera.pos.y = c2State.camera.pos.y ∧
    (rotateCamera c2State 90).camera.pos.z = 0 := by
  have h : (rotateCamera c2State 90).camera.pos = ⟨-5, 0, 0⟩ := by
    simp only [rotateCamera, c2State, orbitPosY, lookAt, toRad_ninety,
      Real.cos_pi_div_two, Real.sin_pi_div_two, if_true]
    norm_num
  refine ⟨by rw [h], ?_, by rw [h]⟩
  rw [h]
  simp [c2State]

/-- C4: when the stored orbit axis is `y`, `rotateCamera` replaces the
camera position `(x, y, z)` by
`(x0 + (x - x0)·cos θ - (z - z0)·sin θ, y, z0 + (z - z0)·cos θ + (x - x0)·sin θ)`
with `θ = p1·π/180` the step angle converted from degrees to radians and
`(x0, z0)` the target's X and Z; the Y coordinate is unchanged. -/
theorem c4_orbit_y_update (st : CamState) (p1 : ℝ) (hax : st.opts.axe = "y") :
    (rotateCamera st p1).camera.pos.x =
      st.opts.target.x
        + (st.camera.pos.x - st.opts.target.x) * Real.cos (p1 * (π / 180))
        - (st.camera.pos.z - st.opts.target.z) * Real.sin (p1 * (π / 180)) ∧
    (rotateCamera st p1).camera.pos.y = st.camera.pos.y ∧
    (rotateCamera st p1).camera.pos.z =
      st.opts.target.z
        + (st.camera.pos.z - st.opts.target.z) * Real.cos (p1 * (π / 180))
        + (st.camera.pos.x - st.opts.target.x) * Real.sin (p1 * (π / 180)) := by
  have hpos : (rotateCamera st p1).camera.pos =
      orbitPosY st.opts.target st.camera.pos (toRad p1) := by
    simp only [rotateCamera, if_pos hax]
    split_ifs with h
    · rfl
    · rfl
  rw [hpos]
  unfold orbitPosY
  rw [cos_toRad, sin_toRad]
  exact ⟨rfl, rfl, rfl⟩

/-- Witness for C4: in the concrete axis-`y` scenario state, the orbit
step keeps the Y coordinate. -/
theorem c4_witness : (rotateCamera c2State 90).camera.pos.y = c2State.camera.pos.y :=
  (c4_orbit_y_update c2State 90 rfl).2.1

/-- C7: when the stored orbit axis is any value other than `y`, the orbit
step `rotateCamera p1` (single numeric argument) is total and leaves the
camera position unchanged. -/
theorem c7_unhandled_axis_no_op (st : CamState) (p1 : ℝ)
    (hax : st.opts.axe ≠ "y") :
    (rotateCamera st p1).camera.pos = st.camera.pos ∧
    (rotateCamera st p1).opts = st.opts := by
  constructor
  · simp only [rotateCamera, if_neg hax]
    split_ifs with h
    · rfl
    · rfl
  · rfl

/-- Witness for C7, at the concrete state whose axis is `x`. -/
theorem c7_witness : (rotateCamera c7State 42).camera.pos = c7State.camera.pos :=
  (c7_unhandled_axis_no_op c7State 42 (by decide)).1

/-- C9: `rotateWorldRad` (and the identical `rotateCameraWorldRad`) turns
about the world x axis by `stepX` and then about the world y axis by
`stepY` twice — collapsing to a single world-y turn by `2·stepY` after the
x turn — and its result does not depend on the `stepZ` argument. -/
theorem c9_rotateWorldRad_shape (sx sy sz sz' : ℝ) (f : Vec3 → Vec3) (v : Vec3) :
    rotateWorldRad sx sy sz f v = rotateWorldRad sx sy sz' f v ∧
    rotateWorldRad sx sy sz f v = rotAxisY (2 * sy) (rotAxisX sx (f v)) ∧
    rotateCameraWorldRad sx sy sz f v = rotateWorldRad sx sy sz f v := by
  refine ⟨rfl, ?_, rfl⟩
  simp only [rotateWorldRad, rotateOnWorldAxis, rotAxisX, rotAxisY,
    Vec3.mk.injEq]
  refine ⟨?_, trivial, ?_⟩ <;> rw [Real.cos_two_mul', Real.sin_two_mul] <;> ring

/-- C10: whenever the stored `isLook` flag is set, the orbit step re-aims
the camera at the stored target, whatever the stored axis value; for an
axis other than `y` the position is untouched while the facing vector is
still re-aimed at the target. -/
theorem c10_isLook_reaims (st : CamState) (p1 : ℝ)
    (hlook : st.opts.isLook = true) :
    (rotateCamera st p1).camera.facing =
      ⟨st.opts.target.x - (rotateCamera st p1).camera.pos.x,
       st.opts.target.y - (rotateCamera st p1).camera.pos.y,
       st.opts.target.z - (rotateCamera st p1).camera.pos.z⟩ ∧
    (st.opts.axe ≠ "y" →
      (rotateCamera st p1).camera.pos = st.camera.pos ∧
      (rotateCamera st p1).camera.facing =
        ⟨st.opts.target.x - st.camera.pos.x,
         st.opts.target.y - st.camera.pos.y,
         st.opts.target.z - st.camera.pos.z⟩) := by
  constructor
  · simp only [rotateCamera, hlook, if_true, lookAt, lookAt_pos]
  · intro hax
    simp only [rotateCamera, hlook, if_true, if_neg hax, lookAt, lookAt_pos]
    constructor <;> trivial

/-- Witness for C10, at a concrete state with axis `x` and `isLook` set:
the position is kept and the facing vector becomes the vector to the
target, which differs from the old facing vector. -/
theorem c10_witness :
    (rotateCamera c10State 30).camera.pos = c10State.camera.pos ∧
    (rotateCamera c10State 30).camera.facing =
      ⟨c10State.opts.target.x - c10State.camera.pos.x,
       c10State.opts.target.y - c10State.camera.pos.y,
       c10State.opts.target.z - c10State.camera.pos.z⟩ ∧
    (rotateCamera c10State 30).camera.facing ≠ c10State.camera.facing := by
  have h := (c10_isLook_reaims c10State 30 rfl).2 (by decide)
  refine ⟨h.1, h.2, ?_⟩
  rw [h.2]
  simp only [c10State, Vec3.mk.injEq, ne_eq, not_and]
  norm_num

end Site3d
